import Mathlib

/-!
Verification of the `pro_coinbase_bot` core against its specification.

Shallow embedding conventions:
* Python floats are modelled as exact rationals `ℚ`; transcendental
  quantities (logarithms, square roots, real powers) live in `ℝ`.
* A pandas `NaN` in a column that the code inspects is modelled with
  `Option` (`none` = missing/NaN); IEEE `inf`/`NaN` values produced by
  arithmetic are modelled with dedicated small inductive types where the
  code can actually produce them.
* DataFrames become records of optional column lists; all inputs are
  taken time-ascending, matching the data-model invariant (the
  `sort_index` in the source is the identity on such inputs).
-/

namespace CoinbaseBot

/-! ## Strategy simulator (`strategy.py`) -/

/-- The `StrategyConfig` dataclass from `strategy.py`. -/
structure StrategyConfig where
  fast_sma : ℕ
  slow_sma : ℕ
  stop_loss_pct : ℚ
  take_profit_pct : ℚ
deriving DecidableEq, Repr

/-- One OHLC bar as read by `simulate_symbol`: the code uses `close`,
`low` and `high`; `low`/`high` may be NaN (the code then substitutes the
close), hence `Option`. -/
structure Bar where
  high : Option ℚ
  low : Option ℚ
  close : ℚ
deriving DecidableEq, Repr

/-- Rolling simple moving average with `min_periods = window`
(`indicators` in `strategy.py`): defined (`some`) at index `i` exactly
when `window` bars have elapsed, i.e. `window ≤ i + 1` (and the window is
positive, as pandas requires). -/
def smaAt (window : ℕ) (closes : List ℚ) (i : ℕ) : Option ℚ :=
  if 0 < window ∧ window ≤ i + 1 then
    some ((((closes.drop (i + 1 - window)).take window).sum) / window)
  else none

/-- The entry/hold signal column from `indicators`:
`close > sma_fast ∧ sma_fast > sma_slow`, false whenever either SMA is
still undefined (NaN comparisons are false in pandas). -/
def signalAt (cfg : StrategyConfig) (closes : List ℚ) (i : ℕ) : Bool :=
  match smaAt cfg.fast_sma closes i, smaAt cfg.slow_sma closes i with
  | some f, some s => decide (f < closes.getD i 0 ∧ s < f)
  | _, _ => false

/-- The simulator's single-slot position state: the loop variables
`in_pos`, `entry_price`, `qty` of `simulate_symbol` (the source asserts
`entry_price is not None` whenever `in_pos`). -/
inductive PosState where
  | flat : PosState
  | long (entry_price qty : ℚ) : PosState
deriving DecidableEq, Repr

/-- One output row of `simulate_symbol`: the `pos`, `entry` and `pnl`
columns it writes for a bar. -/
structure SimRow where
  pos : ℕ
  entry : Option ℚ
  pnl : ℚ
deriving DecidableEq, Repr

/-- One iteration of the row loop in `simulate_symbol`: given the state
carried into the bar, the bar itself and its precomputed signal, produce
the row written for this bar and the state carried out. -/
def stepBar (cfg : StrategyConfig) (position_size equity : ℚ)
    (st : PosState) (bar : Bar) (signal : Bool) : SimRow × PosState :=
  let price := bar.close
  match st with
  | .flat =>
    if signal then
      let alloc_cash := equity * position_size
      if 0 < alloc_cash ∧ 0 < price then
        ({ pos := 1, entry := some price, pnl := 0 },
          .long price (alloc_cash / price))
      else ({ pos := 0, entry := none, pnl := 0 }, .flat)
    else ({ pos := 0, entry := none, pnl := 0 }, .flat)
  | .long entry_price qty =>
    let stop := entry_price * (1 - cfg.stop_loss_pct)
    let tp := entry_price * (1 + cfg.take_profit_pct)
    let low := bar.low.getD price
    let high := bar.high.getD price
    let exit_price : Option ℚ :=
      if low ≤ stop then some stop
      else if tp ≤ high then some tp
      else if !signal then some price
      else none
    match exit_price with
    | some x => ({ pos := 0, entry := none, pnl := (x - entry_price) * qty }, .flat)
    | none =>
      ({ pos := 1, entry := some entry_price, pnl := (price - entry_price) * qty },
        .long entry_price qty)

/-- The bar list paired with the signal column, in index order (the row
loop reads `row["signal"]` for each `i`). -/
def simSignals (cfg : StrategyConfig) (closes : List ℚ) :
    ℕ → List Bar → List (Bar × Bool)
  | _, [] => []
  | i, b :: rest => (b, signalAt cfg closes i) :: simSignals cfg closes (i + 1) rest

def simInput (cfg : StrategyConfig) (bars : List Bar) : List (Bar × Bool) :=
  simSignals cfg (bars.map Bar.close) 0 bars

/-- The row loop of `simulate_symbol`, threading the position state. -/
def simGo (cfg : StrategyConfig) (position_size equity : ℚ) :
    PosState → List (Bar × Bool) → List SimRow
  | _, [] => []
  | st, p :: rest =>
    let r := stepBar cfg position_size equity st p.1 p.2
    r.1 :: simGo cfg position_size equity r.2 rest

/-- State threading only (used to talk about the state the loop carries
into bar `i`). -/
def stateGo (cfg : StrategyConfig) (position_size equity : ℚ) :
    PosState → List (Bar × Bool) → PosState
  | st, [] => st
  | st, p :: rest =>
    stateGo cfg position_size equity (stepBar cfg position_size equity st p.1 p.2).2 rest

/-- The `simulate_symbol` method from `strategy.py`: the per-bar rows (`pos`,
`entry`, `pnl` columns) produced for one symbol. -/
def simulate_symbol (cfg : StrategyConfig) (bars : List Bar)
    (position_size equity : ℚ) : List SimRow :=
  simGo cfg position_size equity .flat (simInput cfg bars)

/-- The position state carried into bar `i` by `simulate_symbol`. -/
def stateAt (cfg : StrategyConfig) (bars : List Bar)
    (position_size equity : ℚ) (i : ℕ) : PosState :=
  stateGo cfg position_size equity .flat ((simInput cfg bars).take i)

/-! ### Indexing lemmas for the simulation loop -/

theorem simGo_get? (cfg : StrategyConfig) (ps eq : ℚ) :
    ∀ (l : List (Bar × Bool)) (st : PosState) (i : ℕ),
      (simGo cfg ps eq st l).get? i =
        (l.get? i).map
          (fun p => (stepBar cfg ps eq (stateGo cfg ps eq st (l.take i)) p.1 p.2).1)
  | [], _, _ => by simp [simGo]
  | _ :: _, _, 0 => by simp [simGo, stateGo]
  | p :: rest, st, i + 1 => by
    simpa [simGo, stateGo] using
      simGo_get? cfg ps eq rest (stepBar cfg ps eq st p.1 p.2).2 i

theorem stateGo_take_succ (cfg : StrategyConfig) (ps eq : ℚ) :
    ∀ (l : List (Bar × Bool)) (st : PosState) (i : ℕ) (p : Bar × Bool),
      l.get? i = some p →
      stateGo cfg ps eq st (l.take (i + 1)) =
        (stepBar cfg ps eq (stateGo cfg ps eq st (l.take i)) p.1 p.2).2
  | [], _, _, _, h => by simp at h
  | q :: rest, st, 0, p, h => by
    rw [List.get?_cons_zero] at h
    cases Option.some.inj h
    simp [stateGo]
  | q :: rest, st, i + 1, p, h => by
    rw [List.get?_cons_succ] at h
    simpa [stateGo] using
      stateGo_take_succ cfg ps eq rest (stepBar cfg ps eq st q.1 q.2).2 i p h

theorem simSignals_get? (cfg : StrategyConfig) (closes : List ℚ) :
    ∀ (bars : List Bar) (k i : ℕ),
      (simSignals cfg closes k bars).get? i =
        (bars.get? i).map (fun b => (b, signalAt cfg closes (k + i)))
  | [], _, _ => by simp [simSignals]
  | b :: rest, k, 0 => by simp [simSignals]
  | b :: rest, k, i + 1 => by
    rw [simSignals, List.get?_cons_succ, List.get?_cons_succ,
      simSignals_get? cfg closes rest (k + 1) i]
    have : k + 1 + i = k + (i + 1) := by omega
    rw [this]

theorem simInput_get? (cfg : StrategyConfig) (bars : List Bar) (i : ℕ) :
    (simInput cfg bars).get? i =
      (bars.get? i).map (fun b => (b, signalAt cfg (bars.map Bar.close) i)) := by
  rw [simInput, simSignals_get? cfg (bars.map Bar.close) bars 0 i, Nat.zero_add]

/-! ### Basic facts about the step function -/

theorem stepBar_pos_cases (cfg : StrategyConfig) (ps eq : ℚ)
    (st : PosState) (b : Bar) (sg : Bool) :
    (stepBar cfg ps eq st b sg).1.pos = 0 ∨ (stepBar cfg ps eq st b sg).1.pos = 1 := by
  cases st with
  | flat =>
    cases sg with
    | false => left; rfl
    | true =>
      by_cases h : 0 < eq * ps ∧ 0 < b.close
      · right; simp [stepBar, h]
      · left; simp [stepBar, h]
  | long e q =>
    by_cases h1 : b.low.getD b.close ≤ e * (1 - cfg.stop_loss_pct)
    · left; simp [stepBar, h1]
    · by_cases h2 : e * (1 + cfg.take_profit_pct) ≤ b.high.getD b.close
      · left; simp [stepBar, h1, h2]
      · cases sg with
        | false => left; simp [stepBar, h1, h2]
        | true => right; simp [stepBar, h1, h2]

theorem stepBar_flat_of_false (cfg : StrategyConfig) (ps eq : ℚ) (b : Bar) :
    stepBar cfg ps eq .flat b false = ({ pos := 0, entry := none, pnl := 0 }, .flat) :=
  rfl

theorem stateGo_flat_of_false (cfg : StrategyConfig) (ps eq : ℚ) :
    ∀ (l : List (Bar × Bool)), (∀ p ∈ l, p.2 = false) →
      stateGo cfg ps eq .flat l = .flat
  | [], _ => rfl
  | p :: rest, h => by
    have hp : p.2 = false := h p (List.mem_cons_self p rest)
    have hrow : (stepBar cfg ps eq .flat p.1 p.2).2 = .flat := by
      rw [hp]; rfl
    rw [stateGo, hrow]
    exact stateGo_flat_of_false cfg ps eq rest fun q hq => h q (List.mem_cons_of_mem p hq)

/-- SMA is `none` before `window` bars have elapsed, so a signal that
needs the fast SMA is false there. -/
theorem signalAt_false_of_early (cfg : StrategyConfig) (closes : List ℚ) (i : ℕ)
    (h : i + 1 < cfg.fast_sma) : signalAt cfg closes i = false := by
  have : smaAt cfg.fast_sma closes i = none := by
    unfold smaAt
    rw [if_neg]
    rintro ⟨-, hle⟩
    exact absurd h (Nat.not_lt.mpr hle)
  unfold signalAt
  rw [this]

theorem mem_simGo_pos (cfg : StrategyConfig) (ps eq : ℚ) :
    ∀ (l : List (Bar × Bool)) (st : PosState) (r : SimRow),
      r ∈ simGo cfg ps eq st l → r.pos = 0 ∨ r.pos = 1
  | [], _, _, h => by simp [simGo] at h
  | p :: rest, st, r, h => by
    rw [simGo, List.mem_cons] at h
    rcases h with h | h
    · rw [h]; exact stepBar_pos_cases cfg ps eq st p.1 p.2
    · exact mem_simGo_pos cfg ps eq rest _ r h

/-- C4: Every row produced by `simulate_symbol` carries position 0
or 1, and the position is 0 on every bar strictly before `fast_sma` bars
have elapsed (the fast SMA is undefined there, so the entry condition
cannot fire). -/
theorem simulate_symbol_position_invariant
    (cfg : StrategyConfig) (bars : List Bar) (ps eq : ℚ) :
    (∀ r ∈ simulate_symbol cfg bars ps eq, r.pos = 0 ∨ r.pos = 1) ∧
    (∀ (i : ℕ) (r : SimRow), i + 1 < cfg.fast_sma →
      (simulate_symbol cfg bars ps eq).get? i = some r → r.pos = 0) := by
  constructor
  · intro r hr
    exact mem_simGo_pos cfg ps eq (simInput cfg bars) .flat r hr
  · intro i r hi hr
    rw [simulate_symbol, simGo_get?] at hr
    have hflat : stateGo cfg ps eq .flat ((simInput cfg bars).take i) = .flat := by
      refine stateGo_flat_of_false cfg ps eq _ ?_
      intro p hp
      obtain ⟨j, hj⟩ := List.mem_iff_get?.mp hp
      have hjlt : j < i := by
        by_contra hge
        rw [List.get?_eq_none.mpr
          (le_trans (List.length_take_le _ _) (Nat.le_of_not_lt hge))] at hj
        exact Option.noConfusion hj
      rw [List.get?_take hjlt, simInput_get? cfg bars j] at hj
      cases hbj : bars.get? j with
      | none => rw [hbj] at hj; exact Option.noConfusion hj
      | some b =>
        rw [hbj] at hj
        have : p = (b, signalAt cfg (bars.map Bar.close) j) := (Option.some.inj hj).symm
        rw [this]
        exact signalAt_false_of_early cfg _ j
          (lt_of_le_of_lt (Nat.succ_le_succ (Nat.le_of_lt hjlt)) hi)
    cases hbi : (simInput cfg bars).get? i with
    | none => rw [hbi] at hr; exact Option.noConfusion hr
    | some p =>
      rw [hbi] at hr
      rw [simInput_get? cfg bars i] at hbi
      cases hb : bars.get? i with
      | none => rw [hb] at hbi; exact Option.noConfusion hbi
      | some b =>
        rw [hb] at hbi
        have hp : p = (b, signalAt cfg (bars.map Bar.close) i) := (Option.some.inj hbi).symm
        have hsg : p.2 = false := by
          rw [hp]
          exact signalAt_false_of_early cfg _ i hi
        have : r = (stepBar cfg ps eq .flat p.1 p.2).1 := by
          rw [hflat] at hr
          exact (Option.some.inj hr).symm
        rw [this, hsg, stepBar_flat_of_false]

/-- Witness for C4 at a concrete input: with `fast_sma = 3` the row of
bar 1 exists and has position 0. -/
theorem simulate_symbol_position_invariant_witness :
    (1 : ℕ) + 1 < 3 ∧
      ((simulate_symbol ⟨3, 5, 1/100, 2/100⟩
        [⟨some 2, some 1, 1⟩, ⟨some 3, some 2, 2⟩, ⟨some 4, some 3, 3⟩] 1 100).get? 1 =
        some ⟨0, none, 0⟩) ∧
      (⟨0, none, 0⟩ : SimRow).pos = 0 :=
  ⟨by norm_num, by decide,
    (simulate_symbol_position_invariant ⟨3, 5, 1/100, 2/100⟩
      [⟨some 2, some 1, 1⟩, ⟨some 3, some 2, 2⟩, ⟨some 4, some 3, 3⟩] 1 100).2
      1 ⟨0, none, 0⟩ (by norm_num) (by decide)⟩

/-- Closed form of the step function on a bar processed while Long:
stop-loss, then take-profit, then signal-exit, then hold. -/
theorem stepBar_long_eq (cfg : StrategyConfig) (ps eq e q : ℚ) (b : Bar) (sg : Bool) :
    stepBar cfg ps eq (.long e q) b sg =
      (if b.low.getD b.close ≤ e * (1 - cfg.stop_loss_pct) then
        ({ pos := 0, entry := none, pnl := (e * (1 - cfg.stop_loss_pct) - e) * q }, .flat)
      else if e * (1 + cfg.take_profit_pct) ≤ b.high.getD b.close then
        ({ pos := 0, entry := none, pnl := (e * (1 + cfg.take_profit_pct) - e) * q }, .flat)
      else if sg = false then
        ({ pos := 0, entry := none, pnl := (b.close - e) * q }, .flat)
      else
        ({ pos := 1, entry := some e, pnl := (b.close - e) * q }, .long e q)) := by
  cases sg <;>
    by_cases h1 : b.low.getD b.close ≤ e * (1 - cfg.stop_loss_pct) <;>
      by_cases h2 : e * (1 + cfg.take_profit_pct) ≤ b.high.getD b.close <;>
        simp [stepBar, h1, h2]

/-- Row `i` of the simulation is the step applied to the state carried
into bar `i`, and that step also yields the state carried into bar `i+1`. -/
theorem simulate_symbol_row_step (cfg : StrategyConfig) (bars : List Bar)
    (ps eq : ℚ) (i : ℕ) (b : Bar) (hb : bars.get? i = some b) :
    (simulate_symbol cfg bars ps eq).get? i =
      some (stepBar cfg ps eq (stateAt cfg bars ps eq i) b
        (signalAt cfg (bars.map Bar.close) i)).1 ∧
    stateAt cfg bars ps eq (i + 1) =
      (stepBar cfg ps eq (stateAt cfg bars ps eq i) b
        (signalAt cfg (bars.map Bar.close) i)).2 := by
  have hin : (simInput cfg bars).get? i =
      some (b, signalAt cfg (bars.map Bar.close) i) := by
    rw [simInput_get?, hb]; rfl
  constructor
  · rw [simulate_symbol, simGo_get?, hin]
    rfl
  · exact stateGo_take_succ cfg ps eq (simInput cfg bars) .flat i _ hin

/-- C1 (amended): For every bar processed while the simulator is
Long, exits are evaluated in strict priority: stop-loss first, then
take-profit, then the *signal exit* — which fires whenever the entry
signal is false, i.e. whenever ¬(close > SMA(fast) ∧ SMA(fast) >
SMA(slow)), not merely when close ≤ SMA(fast) — else the bar is held
with mark-to-market pnl `(close − entry) × qty`; on any exit the
recorded pnl is `(exit_price − entry) × qty` and the state returns to
Flat with no re-entry on the same bar. -/
theorem simulate_symbol_long_exit_priority
    (cfg : StrategyConfig) (bars : List Bar) (ps eq : ℚ) (i : ℕ) (b : Bar) (e q : ℚ)
    (hb : bars.get? i = some b)
    (hst : stateAt cfg bars ps eq i = .long e q) :
    (b.low.getD b.close ≤ e * (1 - cfg.stop_loss_pct) →
      (simulate_symbol cfg bars ps eq).get? i =
        some { pos := 0, entry := none, pnl := (e * (1 - cfg.stop_loss_pct) - e) * q } ∧
      stateAt cfg bars ps eq (i + 1) = .flat) ∧
    (¬ b.low.getD b.close ≤ e * (1 - cfg.stop_loss_pct) →
      e * (1 + cfg.take_profit_pct) ≤ b.high.getD b.close →
      (simulate_symbol cfg bars ps eq).get? i =
        some { pos := 0, entry := none, pnl := (e * (1 + cfg.take_profit_pct) - e) * q } ∧
      stateAt cfg bars ps eq (i + 1) = .flat) ∧
    (¬ b.low.getD b.close ≤ e * (1 - cfg.stop_loss_pct) →
      ¬ e * (1 + cfg.take_profit_pct) ≤ b.high.getD b.close →
      signalAt cfg (bars.map Bar.close) i = false →
      (simulate_symbol cfg bars ps eq).get? i =
        some { pos := 0, entry := none, pnl := (b.close - e) * q } ∧
      stateAt cfg bars ps eq (i + 1) = .flat) ∧
    (¬ b.low.getD b.close ≤ e * (1 - cfg.stop_loss_pct) →
      ¬ e * (1 + cfg.take_profit_pct) ≤ b.high.getD b.close →
      signalAt cfg (bars.map Bar.close) i = true →
      (simulate_symbol cfg bars ps eq).get? i =
        some { pos := 1, entry := some e, pnl := (b.close - e) * q } ∧
      stateAt cfg bars ps eq (i + 1) = .long e q) := by
  obtain ⟨hrow, hsucc⟩ := simulate_symbol_row_step cfg bars ps eq i b hb
  rw [hst, stepBar_long_eq] at hrow hsucc
  refine ⟨fun h1 => ?_, fun h1 h2 => ?_, fun h1 h2 h3 => ?_, fun h1 h2 h3 => ?_⟩
  · rw [if_pos h1] at hrow hsucc; exact ⟨hrow, hsucc⟩
  · rw [if_neg h1, if_pos h2] at hrow hsucc; exact ⟨hrow, hsucc⟩
  · rw [if_neg h1, if_neg h2, if_pos h3] at hrow hsucc; exact ⟨hrow, hsucc⟩
  · rw [if_neg h1, if_neg h2, h3] at hrow hsucc
    simp only [Bool.true_eq_false, if_false] at hrow hsucc
    exact ⟨hrow, hsucc⟩

/-- Concrete input for the C1 counterexample: enter Long on bar 4 at
close 141, then on bar 5 the close (142) is *above* the fast SMA
(141.5) but the fast SMA is below the slow SMA (164.6). -/
def c1Cfg : StrategyConfig := ⟨2, 5, 1/2, 1⟩

def c1Bars : List Bar :=
  [⟨some 1, some 1, 1⟩, ⟨some 200, some 200, 200⟩, ⟨some 200, some 200, 200⟩,
   ⟨some 140, some 140, 140⟩, ⟨some 141, some 141, 141⟩, ⟨some 142, some 142, 142⟩]

/-- C1 counterexample: On bar 5 the simulator is Long (entry 141,
qty 1); neither stop-loss nor take-profit triggers, and close = 142 is
strictly above the fast SMA 283/2 = 141.5, so the claim's priority rule
says the position is *held* (row `pos = 1`, state stays Long). The code
instead exits at close (the signal is false because SMA(fast) ≤
SMA(slow)): the row carries `pos = 0` and the state returns to Flat. -/
theorem simulate_symbol_signal_exit_counterexample :
    stateAt c1Cfg c1Bars 1 141 5 = .long 141 1 ∧
    smaAt c1Cfg.fast_sma (c1Bars.map Bar.close) 5 = some (283/2) ∧
    ¬ ((142 : ℚ) ≤ 283/2) ∧
    ¬ ((142 : ℚ) ≤ 141 * (1 - c1Cfg.stop_loss_pct)) ∧
    ¬ (141 * (1 + c1Cfg.take_profit_pct) ≤ (142 : ℚ)) ∧
    (simulate_symbol c1Cfg c1Bars 1 141).get? 5 =
      some { pos := 0, entry := none, pnl := 1 } ∧
    (simulate_symbol c1Cfg c1Bars 1 141).get? 5 ≠
      some { pos := 1, entry := some 141, pnl := 1 } ∧
    stateAt c1Cfg c1Bars 1 141 6 = .flat := by
  norm_num [stateAt, stateGo, simulate_symbol, simGo, simInput, simSignals,
    signalAt, smaAt, stepBar, c1Cfg, c1Bars]

/-- Witness for C1 (amended), third case: on bar 5 of the concrete
input the signal-exit branch fires. -/
theorem simulate_symbol_long_exit_priority_witness :
    (simulate_symbol c1Cfg c1Bars 1 141).get? 5 =
      some { pos := 0, entry := none, pnl := ((142 : ℚ) - 141) * 1 } ∧
    stateAt c1Cfg c1Bars 1 141 6 = .flat :=
  (simulate_symbol_long_exit_priority c1Cfg c1Bars 1 141 5
      ⟨some 142, some 142, 142⟩ 141 1 (by norm_num [c1Bars])
      (by norm_num [stateAt, stateGo, simInput, simSignals, signalAt, smaAt,
        stepBar, c1Cfg, c1Bars])).2.2.1
    (by norm_num [c1Cfg]) (by norm_num [c1Cfg])
    (by norm_num [signalAt, smaAt, c1Cfg, c1Bars])

/-- C10: A bar on which a Long position exits (stop-loss,
take-profit or signal exit) records `pos = 0`, `entry` unset, and pnl
equal to the realized `(exit_price − entry) × qty` (exit price chosen in
the stop/tp/close priority order); the state carried out of the bar is
Flat, so exit bars count as flat downstream. -/
theorem simulate_symbol_exit_row_flat
    (cfg : StrategyConfig) (bars : List Bar) (ps eq : ℚ) (i : ℕ) (b : Bar) (e q : ℚ)
    (hb : bars.get? i = some b)
    (hst : stateAt cfg bars ps eq i = .long e q)
    (hexit : b.low.getD b.close ≤ e * (1 - cfg.stop_loss_pct) ∨
      e * (1 + cfg.take_profit_pct) ≤ b.high.getD b.close ∨
      signalAt cfg (bars.map Bar.close) i = false) :
    (simulate_symbol cfg bars ps eq).get? i =
      some { pos := 0, entry := none,
             pnl := ((if b.low.getD b.close ≤ e * (1 - cfg.stop_loss_pct) then
                 e * (1 - cfg.stop_loss_pct)
               else if e * (1 + cfg.take_profit_pct) ≤ b.high.getD b.close then
                 e * (1 + cfg.take_profit_pct)
               else b.close) - e) * q } ∧
    stateAt cfg bars ps eq (i + 1) = .flat := by
  obtain ⟨hrow, hsucc⟩ := simulate_symbol_row_step cfg bars ps eq i b hb
  rw [hst, stepBar_long_eq] at hrow hsucc
  by_cases h1 : b.low.getD b.close ≤ e * (1 - cfg.stop_loss_pct)
  · rw [if_pos h1] at hrow hsucc
    rw [if_pos h1]
    exact ⟨hrow, hsucc⟩
  · by_cases h2 : e * (1 + cfg.take_profit_pct) ≤ b.high.getD b.close
    · rw [if_neg h1, if_pos h2] at hrow hsucc
      rw [if_neg h1, if_pos h2]
      exact ⟨hrow, hsucc⟩
    · have h3 : signalAt cfg (bars.map Bar.close) i = false := by
        rcases hexit with h | h | h
        · exact absurd h h1
        · exact absurd h h2
        · exact h
      rw [if_neg h1, if_neg h2, if_pos h3] at hrow hsucc
      rw [if_neg h1, if_neg h2]
      exact ⟨hrow, hsucc⟩

/-- Concrete input for the C10 witness: enter on bar 2 at close 11,
stop-loss on bar 3 (low 5 ≤ stop 5.5). -/
def c10Cfg : StrategyConfig := ⟨2, 3, 1/2, 10⟩

def c10Bars : List Bar :=
  [⟨some 10, some 10, 10⟩, ⟨some 10, some 10, 10⟩,
   ⟨some 11, some 11, 11⟩, ⟨some 6, some 5, 6⟩]

/-- Witness for C10: the stop-loss exit bar of the concrete input. -/
theorem simulate_symbol_exit_row_flat_witness :
    (simulate_symbol c10Cfg c10Bars 1 11).get? 3 =
      some { pos := 0, entry := none,
             pnl := ((if (5 : ℚ) ≤ 11 * (1 - c10Cfg.stop_loss_pct) then
                 11 * (1 - c10Cfg.stop_loss_pct)
               else if 11 * (1 + c10Cfg.take_profit_pct) ≤ (6 : ℚ) then
                 11 * (1 + c10Cfg.take_profit_pct)
               else (6 : ℚ)) - 11) * 1 } ∧
    stateAt c10Cfg c10Bars 1 11 4 = .flat :=
  simulate_symbol_exit_row_flat c10Cfg c10Bars 1 11 3
    ⟨some 6, some 5, 6⟩ 11 1 (by norm_num [c10Bars])
    (by norm_num [stateAt, stateGo, simInput, simSignals, signalAt, smaAt,
      stepBar, c10Cfg, c10Bars])
    (Or.inl (by norm_num [c10Cfg]))

/-! ## Trade inference and statistics (`backtesting/stats.py`) -/

/-- The `Trade` dataclass from `stats.py`. -/
structure Trade where
  entry_idx : ℕ
  exit_idx : ℕ
  pnl : ℚ
deriving DecidableEq, Repr

/-- Numpy sign (`np.sign`) restricted to the values the code compares. -/
def npSign (x : ℚ) : ℤ :=
  if x < 0 then -1 else if x = 0 then 0 else 1

/-- Loop state of `infer_trades_from_position` (`in_trade`, `entry_idx`,
the accumulated `trades` list). -/
structure InferState where
  in_trade : Bool
  entry_idx : Option ℕ
  trades : List Trade

/-- One iteration of the loop in `infer_trades_from_position` at bar
`i ≥ 1`: enter on 0→nonzero while not in a trade; exit (and re-enter on
a sign flip) on curr = 0 or a sign change, with the trade's pnl the sum
of the `pnl` column from the entry bar to bar `i` inclusive. -/
def inferStep (pos pnl : List ℚ) (st : InferState) (i : ℕ) : InferState :=
  let prev := pos.getD (i - 1) 0
  let curr := pos.getD i 0
  if !st.in_trade ∧ prev = 0 ∧ curr ≠ 0 then
    { st with in_trade := true, entry_idx := some i }
  else if st.in_trade ∧ (curr = 0 ∨ npSign curr ≠ npSign prev) then
    let ei := st.entry_idx.getD (i - 1)
    let trade_pnl := ((pnl.drop ei).take (i + 1 - ei)).sum
    { in_trade := curr ≠ 0,
      entry_idx := if curr ≠ 0 then some i else none,
      trades := st.trades ++ [⟨ei, i, trade_pnl⟩] }
  else st

/-- The function `infer_trades_from_position` from `stats.py` (the `position` column
with NaN already filled to 0, and the `pnl` column — all-zero when the
frame has no `pnl` column). -/
def infer_trades_from_position (pos pnl : List ℚ) : List Trade :=
  ((List.range' 1 (pos.length - 1)).foldl (inferStep pos pnl) ⟨false, none, []⟩).trades

/-- The trade-inference rule exactly as C3 states it, written as a
recursion over consecutive (position, pnl) pairs: a 0→nonzero transition
opens a trade at that bar; a transition to 0 or a sign flip closes it
there with pnl accumulated from the entry bar through the closing bar
inclusive; a sign-flip close simultaneously opens a new trade at the
same bar. -/
def specTradesGo (prev : ℚ) (i : ℕ) (opn : Option (ℕ × ℚ)) :
    List (ℚ × ℚ) → List Trade
  | [] => []
  | (curr, p) :: rest =>
    match opn with
    | none =>
      if prev = 0 ∧ curr ≠ 0 then specTradesGo curr (i + 1) (some (i, p)) rest
      else specTradesGo curr (i + 1) none rest
    | some (e, acc) =>
      if curr = 0 then ⟨e, i, acc + p⟩ :: specTradesGo curr (i + 1) none rest
      else if npSign curr ≠ npSign prev then
        ⟨e, i, acc + p⟩ :: specTradesGo curr (i + 1) (some (i, p)) rest
      else specTradesGo curr (i + 1) (some (e, acc + p)) rest

def specTrades (pos pnl : List ℚ) : List Trade :=
  match pos.zip pnl with
  | [] => []
  | _ :: rest => specTradesGo (pos.headD 0) 1 none rest

/-- Extending a slice sum `pnl[e..k-1]` by the element at `k`. -/
theorem sum_slice_succ (l : List ℚ) (e k : ℕ) (he : e ≤ k) (hk : k < l.length) :
    ((l.drop e).take (k + 1 - e)).sum = ((l.drop e).take (k - e)).sum + l.getD k 0 := by
  have h1 : k + 1 - e = (k - e) + 1 := by omega
  have h2 : (l.drop e)[k - e]? = some (l.getD k 0) := by
    rw [List.getElem?_drop]
    have h3 : e + (k - e) = k := by omega
    rw [h3, List.getD_eq_getD_get?, ← List.get?_eq_getElem?]
    cases hg : l.get? k with
    | none =>
      rw [List.get?_eq_none] at hg
      omega
    | some x => rfl
  rw [h1, List.take_succ, List.sum_append, h2]
  simp

theorem inferFold_spec (pos pnl : List ℚ) (hlen : pnl.length = pos.length) :
    ∀ (rest : List (ℚ × ℚ)) (k : ℕ) (st : InferState) (e? : Option (ℕ × ℚ)),
      1 ≤ k →
      (pos.zip pnl).drop k = rest →
      (e? = none ∧ st.in_trade = false ∨
        (∃ e acc, e? = some (e, acc) ∧ st.in_trade = true ∧ st.entry_idx = some e ∧
          e < k ∧ acc = ((pnl.drop e).take (k - e)).sum)) →
      ((List.range' k (pos.length - k)).foldl (inferStep pos pnl) st).trades =
        st.trades ++ specTradesGo (pos.getD (k - 1) 0) k e? rest
  | [], k, st, e?, hk, hrest, hinv => by
    have hzlen : (pos.zip pnl).length = pos.length := by
      rw [List.length_zip, hlen, min_self]
    have hk' : pos.length ≤ k := by
      have := List.drop_eq_nil_iff.mp (by rw [hrest])
      omega
    rw [Nat.sub_eq_zero_of_le hk']
    cases e? <;> simp [specTradesGo, List.range']
  | (curr, p) :: rest, k, st, e?, hk, hrest, hinv => by
    have hzlen : (pos.zip pnl).length = pos.length := by
      rw [List.length_zip, hlen, min_self]
    have hklt : k < pos.length := by
      by_contra hle
      rw [List.drop_eq_nil_iff.mpr (by omega)] at hrest
      exact List.noConfusion hrest
    have hget : (pos.zip pnl).get? k = some (curr, p) := by
      have h0 : ((pos.zip pnl).drop k).get? 0 = some (curr, p) := by rw [hrest]; rfl
      rwa [List.get?_drop, Nat.add_zero] at h0
    obtain ⟨hgp, hgq⟩ := (List.get?_zip_eq_some _ _ _ _).mp hget
    have hcurr : pos.getD k 0 = curr := by
      rw [List.getD_eq_getD_get?, hgp]; rfl
    have hpv : pnl.getD k 0 = p := by
      rw [List.getD_eq_getD_get?, hgq]; rfl
    have hrest' : (pos.zip pnl).drop (k + 1) = rest := by
      have hdd : (pos.zip pnl).drop (k + 1) = ((pos.zip pnl).drop k).drop 1 :=
        (List.drop_drop 1 k _).symm
      rw [hdd, hrest]
      rfl
    have hklt' : k < pnl.length := by omega
    have hrange : pos.length - k = (pos.length - (k + 1)) + 1 := by omega
    have hk1 : k + 1 - 1 = k := by omega
    rw [hrange, List.range'_succ, List.foldl_cons]
    rcases hinv with ⟨he, hin⟩ | ⟨e, acc, he, hin, hidx, helt, hacc⟩
    · -- not in a trade
      subst he
      by_cases hopen : pos.getD (k - 1) 0 = 0 ∧ curr ≠ 0
      · have hstep : inferStep pos pnl st k =
            { st with in_trade := true, entry_idx := some k } := by
          rw [inferStep]
          rw [if_pos]
          exact ⟨by rw [hin]; rfl, hopen.1, by rw [hcurr]; exact hopen.2⟩
        have hp1 : p = ((pnl.drop k).take ((k + 1) - k)).sum := by
          have h5 := sum_slice_succ pnl k k le_rfl hklt'
          rw [Nat.sub_self, List.take_zero, List.sum_nil, zero_add] at h5
          rw [h5]
          exact hpv.symm
        have ih := inferFold_spec pos pnl hlen rest (k + 1)
          { st with in_trade := true, entry_idx := some k } (some (k, p))
          (by omega) hrest'
          (Or.inr ⟨k, p, rfl, rfl, rfl, by omega, hp1⟩)
        rw [hstep, ih, hk1, hcurr]
        rw [specTradesGo]
        rw [if_pos hopen]
      · have hstep : inferStep pos pnl st k = st := by
          rw [inferStep]
          rw [if_neg, if_neg]
          · rintro ⟨hint, -⟩
            rw [hin] at hint
            exact Bool.noConfusion hint
          · rintro ⟨h1, h2, h3⟩
            rw [hcurr] at h3
            exact hopen ⟨h2, h3⟩
        have ih := inferFold_spec pos pnl hlen rest (k + 1) st none
          (by omega) hrest' (Or.inl ⟨rfl, hin⟩)
        rw [hstep, ih, hk1, hcurr]
        rw [specTradesGo]
        rw [if_neg hopen]
    · -- in a trade with entry `e` and accumulated pnl `acc`
      subst he
      have hsum : ((pnl.drop e).take (k + 1 - e)).sum = acc + p := by
        rw [sum_slice_succ pnl e k (by omega) hklt', ← hacc, hpv]
      by_cases hclose : curr = 0 ∨ npSign curr ≠ npSign (pos.getD (k - 1) 0)
      · have hstep : inferStep pos pnl st k =
            { in_trade := curr ≠ 0,
              entry_idx := if curr ≠ 0 then some k else none,
              trades := st.trades ++ [⟨e, k, acc + p⟩] } := by
          rw [inferStep]
          rw [if_neg, if_pos]
          · rw [hidx, hcurr]
            simp only [Option.getD_some]
            rw [hsum]
          · exact ⟨hin, by rw [hcurr]; exact hclose⟩
          · rintro ⟨hint, -⟩
            rw [hin] at hint
            exact Bool.noConfusion hint
        by_cases hz : curr = 0
        · have ih := inferFold_spec pos pnl hlen rest (k + 1)
            { in_trade := curr ≠ 0,
              entry_idx := if curr ≠ 0 then some k else none,
              trades := st.trades ++ [⟨e, k, acc + p⟩] } none
            (by omega) hrest'
            (Or.inl ⟨rfl, by simp [hz]⟩)
          rw [hstep, ih, hk1, hcurr]
          rw [specTradesGo]
          rw [if_pos hz]
          simp
        · have hflip : npSign curr ≠ npSign (pos.getD (k - 1) 0) := by
            rcases hclose with h | h
            · exact absurd h hz
            · exact h
          have hp1 : p = ((pnl.drop k).take ((k + 1) - k)).sum := by
            have h5 := sum_slice_succ pnl k k le_rfl hklt'
            rw [Nat.sub_self, List.take_zero, List.sum_nil, zero_add] at h5
            rw [h5]
            exact hpv.symm
          have ih := inferFold_spec pos pnl hlen rest (k + 1)
            { in_trade := curr ≠ 0,
              entry_idx := if curr ≠ 0 then some k else none,
              trades := st.trades ++ [⟨e, k, acc + p⟩] } (some (k, p))
            (by omega) hrest'
            (Or.inr ⟨k, p, rfl, by simp [hz], by simp [hz], by omega, hp1⟩)
          rw [hstep, ih, hk1, hcurr]
          rw [specTradesGo]
          rw [if_neg hz, if_pos hflip]
          simp
      · have hstep : inferStep pos pnl st k = st := by
          rw [inferStep]
          rw [if_neg, if_neg]
          · rintro ⟨-, hcl⟩
            rw [hcurr] at hcl
            exact hclose hcl
          · rintro ⟨hint, -⟩
            rw [hin] at hint
            exact Bool.noConfusion hint
        push_neg at hclose
        have ih := inferFold_spec pos pnl hlen rest (k + 1) st (some (e, acc + p))
          (by omega) hrest'
          (Or.inr ⟨e, acc + p, rfl, hin, hidx, by omega, hsum.symm⟩)
        rw [hstep, ih, hk1, hcurr]
        rw [specTradesGo]
        rw [if_neg hclose.1, if_neg (by simpa using hclose.2)]

/-- C3: the function `infer_trades_from_position` computes exactly the trades the
specification describes (open on 0→nonzero, close on transition to 0 or
sign flip with pnl summed from entry through close inclusive, sign-flip
close reopens at the same bar), and on the documented example it returns
exactly the two trades (2,5) with pnl 3 and (6,8) with pnl −2. -/
theorem infer_trades_matches_spec :
    (∀ (pos pnl : List ℚ), pnl.length = pos.length →
      infer_trades_from_position pos pnl = specTrades pos pnl) ∧
    infer_trades_from_position [0, 0, 1, 1, 1, 0, -1, -1, 0, 0]
        [0, 0, 1, 1, 1, 0, -2, 1, -1, 0] =
      [⟨2, 5, 3⟩, ⟨6, 8, -2⟩] := by
  constructor
  · intro pos pnl hlen
    cases pos with
    | nil =>
      cases pnl with
      | nil => rfl
      | cons q0 pnl' => simp at hlen
    | cons p0 pos' =>
      cases pnl with
      | nil => simp at hlen
      | cons q0 pnl' =>
        have hmain := inferFold_spec (p0 :: pos') (q0 :: pnl') hlen
          (((p0 :: pos').zip (q0 :: pnl')).drop 1) 1
          ⟨false, none, []⟩ none le_rfl rfl (Or.inl ⟨rfl, rfl⟩)
        rw [infer_trades_from_position, hmain]
        rfl
  · norm_num [infer_trades_from_position, inferStep, npSign, List.range']

/-- Witness for C3 on a concrete length-matched input. -/
theorem infer_trades_matches_spec_witness :
    infer_trades_from_position [0, 1, 0] [0, 2, 3] = specTrades [0, 1, 0] [0, 2, 3] :=
  infer_trades_matches_spec.1 [0, 1, 0] [0, 2, 3] rfl

/-! ### Maximum drawdown (`max_drawdown_from_equity`) -/

/-- Running maximum continuing from a prior peak `m` (`cummax`). -/
def cummaxFrom (m : ℚ) : List ℚ → List ℚ
  | [] => []
  | x :: xs => max m x :: cummaxFrom (max m x) xs

/-- Pandas `equity.cummax()`. -/
def cummax : List ℚ → List ℚ
  | [] => []
  | x :: xs => x :: cummaxFrom x xs

/-- One drawdown term `(running_max − equity) / running_max`, with a
peak equal to 0 replaced by NaN (`running_max.replace(0, np.nan)`). -/
def ddTerm (m x : ℚ) : Option ℚ :=
  if m = 0 then none else some ((m - x) / m)

/-- Pandas `Series.max(skipna=True)` step: NaN (`none`) entries are skipped. -/
def maxStep (acc : Option ℚ) (o : Option ℚ) : Option ℚ :=
  match o with
  | none => acc
  | some x =>
    match acc with
    | none => some x
    | some a => some (max a x)

def seriesMax (l : List (Option ℚ)) : Option ℚ :=
  l.foldl maxStep none

/-- The function `max_drawdown_from_equity` from `stats.py`. `none` models the NaN
returned when every drawdown term is NaN (all-zero running peak, or
empty input). The final `float(dd.max() or 0.0)` is the identity on the
computed maximum: NaN is truthy in Python so NaN stays NaN, and `0.0 or
0.0` is `0.0`. -/
def max_drawdown_from_equity (equity : List ℚ) : Option ℚ :=
  seriesMax ((cummax equity).zipWith ddTerm equity)

theorem mddFold_bounds :
    ∀ (xs : List ℚ) (m : ℚ) (acc : Option ℚ),
      0 ≤ m → (∀ x ∈ xs, 0 ≤ x) →
      (∀ q, acc = some q → 0 ≤ q ∧ q ≤ 1) →
      (∀ q, ((cummaxFrom m xs).zipWith ddTerm xs).foldl maxStep acc = some q →
        0 ≤ q ∧ q ≤ 1) ∧
      ((acc.isSome = true ∨ (∃ x ∈ xs, 0 < x)) →
        (((cummaxFrom m xs).zipWith ddTerm xs).foldl maxStep acc).isSome = true)
  | [], m, acc, _, _, hacc => by
    refine ⟨fun q h => hacc q h, fun hs => ?_⟩
    rcases hs with hs | ⟨x, hx, -⟩
    · exact hs
    · simp at hx
  | x :: xs, m, acc, hm, hxs, hacc => by
    have hx : 0 ≤ x := hxs x (List.mem_cons_self x xs)
    have hm' : 0 ≤ max m x := le_trans hm (le_max_left m x)
    have hxs' : ∀ y ∈ xs, 0 ≤ y := fun y hy => hxs y (List.mem_cons_of_mem x hy)
    rw [cummaxFrom, List.zipWith_cons_cons, List.foldl_cons]
    by_cases hz : max m x = 0
    · have hterm : ddTerm (max m x) x = none := by rw [ddTerm, if_pos hz]
      rw [hterm]
      have ih := mddFold_bounds xs (max m x) acc hm' hxs' hacc
      refine ⟨ih.1, fun hs => ih.2 ?_⟩
      rcases hs with hs | ⟨y, hy, hypos⟩
      · exact Or.inl hs
      · rcases List.mem_cons.mp hy with rfl | hy'
        · exact absurd (lt_of_lt_of_le hypos (le_max_right m y)) (by rw [hz]; exact lt_irrefl 0)
        · exact Or.inr ⟨y, hy', hypos⟩
    · have hpos : 0 < max m x := lt_of_le_of_ne hm' (Ne.symm hz)
      have hterm : ddTerm (max m x) x = some ((max m x - x) / max m x) := by
        rw [ddTerm, if_neg hz]
      have hq0 : 0 ≤ (max m x - x) / max m x ∧ (max m x - x) / max m x ≤ 1 := by
        constructor
        · exact div_nonneg (sub_nonneg.mpr (le_max_right m x)) (le_of_lt hpos)
        · rw [div_le_one hpos]
          exact sub_le_self _ hx
      have hacc' : ∀ q, maxStep acc (some ((max m x - x) / max m x)) = some q →
          0 ≤ q ∧ q ≤ 1 := by
        intro q hq
        cases hac : acc with
        | none =>
          rw [hac] at hq
          simp [maxStep] at hq
          rw [← hq]
          exact hq0
        | some a =>
          rw [hac] at hq
          simp [maxStep] at hq
          have ha := hacc a hac
          rw [← hq]
          constructor
          · exact le_max_of_le_left ha.1
          · exact max_le ha.2 hq0.2
      have ih := mddFold_bounds xs (max m x) (maxStep acc (some ((max m x - x) / max m x)))
        hm' hxs' hacc'
      rw [hterm]
      refine ⟨ih.1, fun _ => ih.2 (Or.inl ?_)⟩
      cases hac : acc <;> simp [maxStep, hac]

theorem mddFold_monotone :
    ∀ (xs : List ℚ) (m : ℚ), 0 < m → List.Chain (· ≤ ·) m xs →
      ((cummaxFrom m xs).zipWith ddTerm xs).foldl maxStep (some 0) = some 0
  | [], _, _, _ => rfl
  | x :: xs, m, hm, hch => by
    rcases List.chain_cons.mp hch with ⟨hmx, hch'⟩
    have hmax : max m x = x := max_eq_right hmx
    have hxpos : 0 < x := lt_of_lt_of_le hm hmx
    rw [cummaxFrom, List.zipWith_cons_cons, List.foldl_cons, hmax]
    have hterm : ddTerm x x = some 0 := by
      rw [ddTerm, if_neg (ne_of_gt hxpos)]
      rw [sub_self, zero_div]
    rw [hterm]
    have hstep : maxStep (some 0) (some 0) = some 0 := by simp [maxStep]
    rw [hstep]
    exact mddFold_monotone xs x hxpos hch'

/-- C5 (amended): For every nonnegative equity curve containing a
positive value, `max_drawdown_from_equity` returns a defined maximum
drawdown fraction in [0, 1] (bars whose running peak is 0 are skipped as
NaN); it returns 0 for every nondecreasing positive curve; and on
[100, 120, 110, 130, 90, 95] it returns 4/13 ≥ (130 − 90)/130 − 1e-6. -/
theorem max_drawdown_from_equity_props :
    (∀ equity : List ℚ, (∀ x ∈ equity, 0 ≤ x) → (∃ x ∈ equity, 0 < x) →
      ∃ q, max_drawdown_from_equity equity = some q ∧ 0 ≤ q ∧ q ≤ 1) ∧
    (∀ equity : List ℚ, equity ≠ [] → List.Chain' (· ≤ ·) equity →
      (∀ x ∈ equity, 0 < x) → max_drawdown_from_equity equity = some 0) ∧
    (max_drawdown_from_equity [100, 120, 110, 130, 90, 95] = some (4/13) ∧
      (130 - 90 : ℚ) / 130 - 1/1000000 ≤ 4/13) := by
  refine ⟨?_, ?_, ?_⟩
  · intro equity h0 hpos
    cases equity with
    | nil => simp at hpos
    | cons x xs =>
      have hx0 : 0 ≤ x := h0 x (List.mem_cons_self x xs)
      have hxs0 : ∀ y ∈ xs, 0 ≤ y := fun y hy => h0 y (List.mem_cons_of_mem x hy)
      rw [max_drawdown_from_equity, cummax, List.zipWith_cons_cons, seriesMax,
        List.foldl_cons]
      by_cases hz : x = 0
      · have hterm : ddTerm x x = none := by rw [ddTerm, if_pos hz]
        rw [hterm]
        have hsome : (∃ y ∈ xs, 0 < y) := by
          rcases hpos with ⟨y, hy, hypos⟩
          rcases List.mem_cons.mp hy with rfl | hy'
          · exact absurd hypos (by rw [hz]; exact lt_irrefl 0)
          · exact ⟨y, hy', hypos⟩
        have hb := mddFold_bounds xs x (maxStep none none) hx0 hxs0 (by
          intro q hq
          simp [maxStep] at hq)
        have hs := hb.2 (Or.inr hsome)
        obtain ⟨q, hq⟩ := Option.isSome_iff_exists.mp hs
        exact ⟨q, hq, hb.1 q hq⟩
      · have hxpos : 0 < x := lt_of_le_of_ne hx0 (Ne.symm hz)
        have hterm : ddTerm x x = some 0 := by
          rw [ddTerm, if_neg hz, sub_self, zero_div]
        rw [hterm]
        have hacc : ∀ q, maxStep none (some 0) = some q → 0 ≤ q ∧ q ≤ 1 := by
          intro q hq
          simp [maxStep] at hq
          rw [← hq]
          exact ⟨le_refl 0, zero_le_one⟩
        have hb := mddFold_bounds xs x (maxStep none (some 0)) hx0 hxs0 hacc
        have hs := hb.2 (Or.inl (by simp [maxStep]))
        obtain ⟨q, hq⟩ := Option.isSome_iff_exists.mp hs
        exact ⟨q, hq, hb.1 q hq⟩
  · intro equity hne hchain hpos
    cases equity with
    | nil => exact absurd rfl hne
    | cons x xs =>
      have hxpos : 0 < x := hpos x (List.mem_cons_self x xs)
      rw [max_drawdown_from_equity, cummax, List.zipWith_cons_cons, seriesMax,
        List.foldl_cons]
      have hterm : ddTerm x x = some 0 := by
        rw [ddTerm, if_neg (ne_of_gt hxpos), sub_self, zero_div]
      rw [hterm]
      have hstep : maxStep none (some 0) = some 0 := by simp [maxStep]
      rw [hstep]
      exact mddFold_monotone xs x hxpos hchain
  · constructor
    · norm_num [max_drawdown_from_equity, cummax, cummaxFrom, ddTerm, seriesMax, maxStep]
    · norm_num

/-- Witness for C5 at the concrete curve [1, 2]. -/
theorem max_drawdown_from_equity_props_witness :
    ∃ q, max_drawdown_from_equity [1, 2] = some q ∧ 0 ≤ q ∧ q ≤ 1 :=
  max_drawdown_from_equity_props.1 [1, 2]
    (by norm_num) ⟨1, by norm_num⟩

/-- C5 counterexample: On the equity curve [10, −5] the code returns
3/2, which is not a fraction in [0, 1]: the claim's "for every equity
series … in [0, 1]" fails once the curve goes negative. -/
theorem max_drawdown_from_equity_counterexample :
    max_drawdown_from_equity [10, -5] = some (3/2) ∧ ¬ ((3/2 : ℚ) ≤ 1) := by
  norm_num [max_drawdown_from_equity, cummax, cummaxFrom, ddTerm, seriesMax, maxStep]

/-! ### `compute_stats` -/

/-- The failure modes of `compute_stats`: the two explicit `ValueError`s
(one distinguishable invalid-input failure), the `IndexError` raised by
`equity.iloc[-1]` on an empty frame, the `ZeroDivisionError` from
`n_periods / float(periods_per_year)` when the effective
periods-per-year is 0, and the `ValueError` from `math.sqrt` of a
negative periods-per-year (reached only with ≥ 2 log-return
observations). -/
inductive StatsError where
  | invalidInput
  | indexError
  | zeroDivision
  | mathDomain
deriving DecidableEq, Repr

/-- The input frame of `compute_stats`: optional columns (`none` =
column absent). `times` is a DatetimeIndex in minutes when the frame has
one; `timestamp` the fallback column. Inputs are time-ascending, so the
`sort_index` in `_as_datetime_index` is the identity. -/
structure StatsInput where
  times : Option (List ℚ)
  timestamp : Option (List ℚ)
  equity : Option (List ℚ)
  pnl : Option (List ℚ)
  position : Option (List ℚ)

/-- The helper `_as_datetime_index` from `stats.py`. -/
def asDatetimeIndex (inp : StatsInput) : Except StatsError (List ℚ) :=
  match inp.times with
  | some t => .ok t
  | none =>
    match inp.timestamp with
    | some t => .ok t
    | none => .error .invalidInput

def cumsumFrom (acc : ℚ) : List ℚ → List ℚ
  | [] => []
  | x :: xs => (acc + x) :: cumsumFrom (acc + x) xs

/-- Pandas `Series.cumsum()`. -/
def cumsum (l : List ℚ) : List ℚ := cumsumFrom 0 l

/-- The equity column: as given, else synthesized as
`float(start_equity) + pnl.cumsum()` with default start 10000, else the
invalid-input `ValueError`. -/
def equityList (inp : StatsInput) (start_equity : Option ℚ) :
    Except StatsError (List ℚ) :=
  match inp.equity with
  | some e => .ok e
  | none =>
    match inp.pnl with
    | some p => .ok ((cumsum p).map (fun x => start_equity.getD 10000 + x))
    | none => .error .invalidInput

/-- The log-return observations feeding the Sharpe ratio.
`pct_change` produces NaN on the first bar and ±inf when the previous
equity is 0; `replace(±inf, nan).dropna()` removes those; `log1p`
produces −inf at ratio 0 and NaN below, removed by the second
`replace/dropna`. What survives is `log(b/a)` for each consecutive pair
with `a ≠ 0` and `b/a > 0`. -/
noncomputable def logReturns (equity : List ℚ) : List ℝ :=
  (equity.zip equity.tail).filterMap (fun ab =>
    if ab.1 ≠ 0 ∧ 0 < ab.2 / ab.1 then
      some (Real.log ((ab.2 : ℝ) / (ab.1 : ℝ)))
    else none)

/-- Consecutive index differences (`index.to_series().diff().dropna()`). -/
def diffs (l : List ℚ) : List ℚ := (l.zip l.tail).map (fun ab => ab.2 - ab.1)

/-- Pandas `Series.median()`: sort, take the middle element, or the mean of the
two middle elements for an even count (callers guard against empty). -/
def median (l : List ℚ) : ℚ :=
  let s := l.insertionSort (· ≤ ·)
  if l.length % 2 = 1 then s.getD (l.length / 2) 0
  else (s.getD (l.length / 2 - 1) 0 + s.getD (l.length / 2) 0) / 2

/-- Python's `round`: round half to even; the `int(...)` around it is
the identity on an already-integral value. -/
def pyRound (q : ℚ) : ℤ :=
  if q - ⌊q⌋ < 1/2 then ⌊q⌋
  else if 1/2 < q - ⌊q⌋ then ⌊q⌋ + 1
  else if ⌊q⌋ % 2 = 0 then ⌊q⌋ else ⌊q⌋ + 1

/-- Inference of `periods_per_year` from the median bar spacing in
minutes (floored at 1), annualized against 365×24×60 minutes, with a
per-minute fallback when no spacing exists. -/
def inferPpy (times : List ℚ) : ℤ :=
  if diffs times ≠ [] then pyRound (525600 / max (median (diffs times)) 1)
  else 525600

/-- The effective `periods_per_year`: as supplied, else inferred. -/
def effPpy (times : List ℚ) (periods_per_year : Option ℤ) : ℚ :=
  match periods_per_year with
  | some p => (p : ℚ)
  | none => ((inferPpy times : ℤ) : ℚ)

/-- The value `total_return = final / max(initial, 1e-12)`. -/
def totalReturn (equity : List ℚ) : ℚ :=
  equity.getLastD 0 / max (equity.headD 0) (1/10^12)

/-- The CAGR block of `compute_stats`: `n_periods = max(len − 1, 1)`,
`years = n_periods / ppy`, result `total_return^(1/years) − 1` when
`years > 0` and `total_return > 0`, else 0. -/
noncomputable def cagrOf (equity : List ℚ) (ppy : ℚ) : ℝ :=
  let n_periods : ℚ := (max (equity.length - 1) 1 : ℕ)
  let years : ℚ := n_periods / ppy
  if 0 < years ∧ 0 < totalReturn equity then
    ((totalReturn equity : ℚ) : ℝ) ^ ((((1 : ℚ) / years : ℚ)) : ℝ) - 1
  else 0

noncomputable def listMeanR (l : List ℝ) : ℝ := l.sum / l.length

/-- Sample standard deviation with Bessel's correction (`std(ddof=1)`). -/
noncomputable def sampleStd (l : List ℝ) : ℝ :=
  Real.sqrt ((l.map (fun x => (x - listMeanR l) ^ 2)).sum / ((l.length : ℝ) - 1))

/-- The Sharpe block: `mu = mean·ppy` when observations exist, `sigma =
std(ddof=1)·sqrt(ppy)` when at least two exist, ratio 0 when sigma is 0
(`math.isclose(sigma, 0.0)` with the default `abs_tol = 0` is exact
equality). The `sqrt` of a negative ppy raises in Python; callers gate
that case with `StatsError.mathDomain` before this value is exposed. -/
noncomputable def sharpeOf (equity : List ℚ) (ppy : ℚ) : ℝ :=
  let lr := logReturns equity
  let mu : ℝ := if lr.length ≠ 0 then listMeanR lr * (ppy : ℝ) else 0
  let sigma : ℝ := if 1 < lr.length then sampleStd lr * Real.sqrt (ppy : ℝ) else 0
  if sigma ≠ 0 then mu / sigma else 0

/-- The trade list `compute_stats` derives: empty without a `position`
column; the pnl column is all zeros when absent. -/
def tradesOf (inp : StatsInput) : List Trade :=
  match inp.position with
  | none => []
  | some pos =>
    infer_trades_from_position pos (inp.pnl.getD (List.replicate pos.length 0))

def wins (ts : List Trade) : List ℚ :=
  (ts.filter (fun t => 0 < t.pnl)).map Trade.pnl

def losses (ts : List Trade) : List ℚ :=
  (ts.filter (fun t => t.pnl < 0)).map (fun t => -t.pnl)

def winRateOf (ts : List Trade) : ℚ :=
  if ts.length ≠ 0 then ((wins ts).length : ℚ) / (ts.length : ℚ) else 0

def grossProfit (ts : List Trade) : ℚ :=
  if wins ts ≠ [] then (wins ts).sum else 0

def grossLoss (ts : List Trade) : ℚ :=
  if losses ts ≠ [] then (losses ts).sum else 0

/-- The raw profit factor: `gross_profit / gross_loss` when losses
exist, `float("inf")` (modelled `none`) when there are wins but no
losses, else 0. -/
def pfRaw (ts : List Trade) : Option ℚ :=
  if 0 < grossLoss ts then some (grossProfit ts / grossLoss ts)
  else if 0 < grossProfit ts then none
  else some 0

/-- The reported profit factor: `float(pf if math.isfinite(pf) else
0.0)` maps the infinite case back to 0. -/
def pfOf (ts : List Trade) : ℚ :=
  match pfRaw ts with
  | some x => x
  | none => 0

/-- Exposure: fraction of bars with nonzero position, 0 without a
`position` column. -/
def exposureOf (inp : StatsInput) : ℚ :=
  match inp.position with
  | none => 0
  | some pos => ((pos.filter (fun x => decide (x ≠ 0))).length : ℚ) / (pos.length : ℚ)

/-- The result record of `compute_stats` (`start`/`end` carry the first
and last timestamp; their calendar formatting is presentation only). -/
structure StatsRecord where
  trades : ℕ
  win_rate : ℚ
  cagr : ℝ
  pf : ℚ
  sharpe : ℝ
  max_dd : Option ℚ
  exposure : ℚ
  net_pnl : ℚ
  startTime : ℚ
  endTime : ℚ

/-- The function `compute_stats` from `stats.py`, with its failure modes explicit and
in source order: time ordering, then the equity/pnl column requirement,
then the `IndexError` on an empty frame (`equity.iloc[-1]`), then the
`ZeroDivisionError` (`years = n_periods / 0.0`), then the math-domain
error (`math.sqrt` of a negative ppy with ≥ 2 log-return observations). -/
noncomputable def compute_stats (inp : StatsInput) (start_equity : Option ℚ)
    (periods_per_year : Option ℤ) : Except StatsError StatsRecord :=
  match asDatetimeIndex inp with
  | .error e => .error e
  | .ok ts =>
    match equityList inp start_equity with
    | .error e => .error e
    | .ok equity =>
      if equity.length = 0 then .error .indexError
      else if effPpy ts periods_per_year = 0 then .error .zeroDivision
      else if effPpy ts periods_per_year < 0 ∧ 1 < (logReturns equity).length then
        .error .mathDomain
      else
        .ok { trades := (tradesOf inp).length
              win_rate := winRateOf (tradesOf inp)
              cagr := cagrOf equity (effPpy ts periods_per_year)
              pf := pfOf (tradesOf inp)
              sharpe := sharpeOf equity (effPpy ts periods_per_year)
              max_dd := max_drawdown_from_equity equity
              exposure := exposureOf inp
              net_pnl := equity.getLastD 0 - equity.headD 0
              startTime := ts.headD 0
              endTime := ts.getLastD 0 }

/-- A successful `compute_stats` run exposes exactly the component
values computed from its resolved time index and equity column. -/
theorem compute_stats_ok_fields (inp : StatsInput) (s : Option ℚ) (p : Option ℤ)
    (r : StatsRecord) (hok : compute_stats inp s p = .ok r) :
    ∃ ts equity, asDatetimeIndex inp = .ok ts ∧ equityList inp s = .ok equity ∧
      r.trades = (tradesOf inp).length ∧
      r.win_rate = winRateOf (tradesOf inp) ∧
      r.cagr = cagrOf equity (effPpy ts p) ∧
      r.pf = pfOf (tradesOf inp) ∧
      r.sharpe = sharpeOf equity (effPpy ts p) ∧
      r.max_dd = max_drawdown_from_equity equity ∧
      r.exposure = exposureOf inp ∧
      r.net_pnl = equity.getLastD 0 - equity.headD 0 := by
  unfold compute_stats at hok
  cases hts : asDatetimeIndex inp with
  | error e => rw [hts] at hok; exact Except.noConfusion hok
  | ok ts =>
    rw [hts] at hok
    cases heq : equityList inp s with
    | error e => rw [heq] at hok; exact Except.noConfusion hok
    | ok equity =>
      rw [heq] at hok
      dsimp only at hok
      by_cases h1 : equity.length = 0
      · rw [if_pos h1] at hok
        exact Except.noConfusion hok
      · rw [if_neg h1] at hok
        by_cases h2 : effPpy ts p = 0
        · rw [if_pos h2] at hok
          exact Except.noConfusion hok
        · rw [if_neg h2] at hok
          by_cases h3 : effPpy ts p < 0 ∧ 1 < (logReturns equity).length
          · rw [if_pos h3] at hok
            exact Except.noConfusion hok
          · rw [if_neg h3] at hok
            have hr := Except.ok.inj hok
            subst hr
            exact ⟨ts, equity, rfl, rfl, rfl, rfl, rfl, rfl, rfl, rfl, rfl, rfl⟩

/-- C6 (amended): the function `compute_stats` reports CAGR =
`(final/max(initial, 1e-12))^(1/years) − 1` with `years =
max(bar_count − 1, 1)/periods_per_year` whenever `years > 0` and the
total return is positive, and reports 0 whenever `years ≤ 0` or the
total return is ≤ 0. (An initial equity ≤ 0 does *not* force 0: the
initial value is clamped at 1e-12.) -/
theorem compute_stats_cagr (equity : List ℚ) (ppy : ℚ) :
    (ppy ≤ 0 → cagrOf equity ppy = 0) ∧
    (totalReturn equity ≤ 0 → cagrOf equity ppy = 0) ∧
    (0 < ppy → 0 < totalReturn equity →
      cagrOf equity ppy = ((totalReturn equity : ℚ) : ℝ) ^
        (((ppy / ((max (equity.length - 1) 1 : ℕ) : ℚ)) : ℚ) : ℝ) - 1) ∧
    (∀ (inp : StatsInput) (s : Option ℚ) (p : Option ℤ) (ts eqy : List ℚ)
        (r : StatsRecord),
      asDatetimeIndex inp = .ok ts → equityList inp s = .ok eqy →
      compute_stats inp s p = .ok r → r.cagr = cagrOf eqy (effPpy ts p)) := by
  have hnp : (0 : ℚ) < ((max (equity.length - 1) 1 : ℕ) : ℚ) := by
    have : 0 < max (equity.length - 1) 1 := by omega
    exact_mod_cast this
  refine ⟨?_, ?_, ?_, ?_⟩
  · intro hppy
    rw [cagrOf, if_neg]
    rintro ⟨hy, -⟩
    rcases lt_or_eq_of_le hppy with hlt | heq0
    · exact absurd hy (not_lt.mpr (le_of_lt (div_neg_of_pos_of_neg hnp hlt)))
    · rw [heq0, div_zero] at hy
      exact lt_irrefl 0 hy
  · intro htr
    rw [cagrOf, if_neg]
    rintro ⟨-, htr'⟩
    exact absurd htr' (not_lt.mpr htr)
  · intro hppy htr
    rw [cagrOf, if_pos ⟨div_pos hnp hppy, htr⟩, one_div_div]
  · intro inp s p ts eqy r hts heq hok
    obtain ⟨ts', eqy', hts', heq', -, -, hc, -⟩ :=
      compute_stats_ok_fields inp s p r hok
    rw [hts] at hts'
    rw [heq] at heq'
    rw [← Except.ok.inj hts', ← Except.ok.inj heq'] at hc
    exact hc

def c6Input : StatsInput := ⟨some [0, 1], none, some [0, 100], none, none⟩

/-- C6 counterexample: On equity [0, 100] (initial equity 0 ≤ ~0)
with `periods_per_year = 1` the reported CAGR is `10^14 − 1`, not 0:
the code clamps the initial equity at 1e-12 instead of reporting 0. -/
theorem compute_stats_cagr_counterexample :
    (compute_stats c6Input none (some 1)).map StatsRecord.cagr =
      .ok ((10 ^ 14 : ℝ) - 1) ∧
    (([(0 : ℚ), 100].headD 0) ≤ 0) ∧ ((10 ^ 14 : ℝ) - 1 ≠ 0) := by
  have htr : totalReturn [0, 100] = 10 ^ 14 := by
    rw [totalReturn]
    norm_num [List.getLastD, List.headD, max_def]
  have hexp : ((1 : ℚ) / (((max ([(0 : ℚ), 100].length - 1) 1 : ℕ) : ℚ) / 1)) = 1 := by
    norm_num [max_def]
  have hcagr : cagrOf [0, 100] 1 = (10 ^ 14 : ℝ) - 1 := by
    rw [cagrOf]
    rw [htr]
    rw [if_pos ⟨by norm_num [max_def], by norm_num⟩]
    rw [hexp, Rat.cast_one, Real.rpow_one]
    norm_num
  refine ⟨?_, by norm_num [List.headD], by norm_num⟩
  unfold compute_stats
  rw [show asDatetimeIndex c6Input = .ok [0, 1] from rfl]
  rw [show equityList c6Input none = .ok [0, 100] from rfl]
  dsimp only
  rw [if_neg (by norm_num), if_neg (by norm_num [effPpy]),
    if_neg (by norm_num [effPpy])]
  dsimp only [Except.map]
  rw [show effPpy [0, 1] (some 1) = 1 from by norm_num [effPpy]]
  rw [hcagr]

/-- Witness for C6 at equity [1, 2], ppy = 1 (total return 2 > 0). -/
theorem compute_stats_cagr_witness :
    cagrOf [1, 2] 1 = ((totalReturn [1, 2] : ℚ) : ℝ) ^
      (((1 / ((max ([(1 : ℚ), 2].length - 1) 1 : ℕ) : ℚ)) : ℚ) : ℝ) - 1 :=
  (compute_stats_cagr [1, 2] 1).2.2.1 (by norm_num)
    (by rw [totalReturn]
        norm_num [List.getLastD, List.headD, max_def])

/-- C7: The reported profit factor equals
`gross_profit/gross_loss` when `gross_loss > 0`; when `gross_loss = 0`
and `gross_profit > 0` the raw value is infinite (`none`) and the
report maps it to 0; when both are 0 (e.g. no trades) the report is 0;
and a successful `compute_stats` reports exactly this value. -/
theorem compute_stats_profit_factor :
    (∀ ts : List Trade,
      pfOf ts = if 0 < grossLoss ts then grossProfit ts / grossLoss ts else 0) ∧
    (∀ ts : List Trade, grossLoss ts = 0 → 0 < grossProfit ts →
      pfRaw ts = none ∧ pfOf ts = 0) ∧
    (∀ ts : List Trade, grossLoss ts = 0 → grossProfit ts = 0 → pfOf ts = 0) ∧
    (∀ (inp : StatsInput) (s : Option ℚ) (p : Option ℤ) (r : StatsRecord),
      compute_stats inp s p = .ok r → r.pf = pfOf (tradesOf inp)) := by
  refine ⟨?_, ?_, ?_, ?_⟩
  · intro ts
    rw [pfOf, pfRaw]
    by_cases h : 0 < grossLoss ts
    · rw [if_pos h, if_pos h]
    · rw [if_neg h, if_neg h]
      by_cases h2 : 0 < grossProfit ts
      · rw [if_pos h2]
      · rw [if_neg h2]
  · intro ts hgl hgp
    have hraw : pfRaw ts = none := by
      rw [pfRaw, if_neg (by rw [hgl]; exact lt_irrefl 0), if_pos hgp]
    exact ⟨hraw, by rw [pfOf, hraw]⟩
  · intro ts hgl hgp
    rw [pfOf, pfRaw, if_neg (by rw [hgl]; exact lt_irrefl 0),
      if_neg (by rw [hgp]; exact lt_irrefl 0)]
  · intro inp s p r hok
    obtain ⟨-, -, -, -, -, -, -, hpf, -⟩ := compute_stats_ok_fields inp s p r hok
    exact hpf

/-- Witness for C7: the all-wins trade list [(0,1,pnl 5)] has raw
profit factor `inf` and reported profit factor 0. -/
theorem compute_stats_profit_factor_witness :
    pfRaw [⟨0, 1, 5⟩] = none ∧ pfOf [⟨0, 1, 5⟩] = 0 :=
  compute_stats_profit_factor.2.1 [⟨0, 1, 5⟩]
    (by norm_num [grossLoss, losses]) (by norm_num [grossProfit, wins])

/-- One inference step leaves the entry/exit skeleton of the trade list
independent of the pnl column (which only fills the pnl field). -/
theorem inferStep_skeleton_one (pos p1 p2 : List ℚ) (st1 st2 : InferState) (i : ℕ)
    (h1 : st1.in_trade = st2.in_trade) (h2 : st1.entry_idx = st2.entry_idx)
    (h3 : st1.trades.map (fun t => (t.entry_idx, t.exit_idx)) =
      st2.trades.map (fun t => (t.entry_idx, t.exit_idx))) :
    (inferStep pos p1 st1 i).in_trade = (inferStep pos p2 st2 i).in_trade ∧
    (inferStep pos p1 st1 i).entry_idx = (inferStep pos p2 st2 i).entry_idx ∧
    (inferStep pos p1 st1 i).trades.map (fun t => (t.entry_idx, t.exit_idx)) =
      (inferStep pos p2 st2 i).trades.map (fun t => (t.entry_idx, t.exit_idx)) := by
  rw [inferStep, inferStep]
  by_cases hA : (!st1.in_trade : Bool) ∧ pos.getD (i - 1) 0 = 0 ∧ pos.getD i 0 ≠ 0
  · have hA2 : (!st2.in_trade : Bool) ∧ pos.getD (i - 1) 0 = 0 ∧ pos.getD i 0 ≠ 0 :=
      ⟨by rw [← h1]; exact hA.1, hA.2.1, hA.2.2⟩
    rw [if_pos hA, if_pos hA2]
    exact ⟨rfl, rfl, h3⟩
  · have hA2 : ¬((!st2.in_trade : Bool) ∧ pos.getD (i - 1) 0 = 0 ∧ pos.getD i 0 ≠ 0) := by
      rw [← h1]
      exact hA
    rw [if_neg hA, if_neg hA2]
    by_cases hB : (st1.in_trade : Bool) ∧
        (pos.getD i 0 = 0 ∨ npSign (pos.getD i 0) ≠ npSign (pos.getD (i - 1) 0))
    · have hB2 : (st2.in_trade : Bool) ∧
          (pos.getD i 0 = 0 ∨ npSign (pos.getD i 0) ≠ npSign (pos.getD (i - 1) 0)) :=
        ⟨h1 ▸ hB.1, hB.2⟩
      rw [if_pos hB, if_pos hB2]
      dsimp only
      refine ⟨rfl, rfl, ?_⟩
      rw [h2, List.map_append, List.map_append, h3]
      rfl
    · have hB2 : ¬((st2.in_trade : Bool) ∧
          (pos.getD i 0 = 0 ∨ npSign (pos.getD i 0) ≠ npSign (pos.getD (i - 1) 0))) := by
        rw [← h1]
        exact hB
      rw [if_neg hB, if_neg hB2]
      exact ⟨h1, h2, h3⟩

theorem inferFold_skeleton (pos p1 p2 : List ℚ) :
    ∀ (idxs : List ℕ) (st1 st2 : InferState),
      st1.in_trade = st2.in_trade → st1.entry_idx = st2.entry_idx →
      st1.trades.map (fun t => (t.entry_idx, t.exit_idx)) =
        st2.trades.map (fun t => (t.entry_idx, t.exit_idx)) →
      (idxs.foldl (inferStep pos p1) st1).trades.map (fun t => (t.entry_idx, t.exit_idx)) =
        (idxs.foldl (inferStep pos p2) st2).trades.map (fun t => (t.entry_idx, t.exit_idx))
  | [], _, _, _, _, h3 => h3
  | i :: idxs, st1, st2, h1, h2, h3 => by
    rw [List.foldl_cons, List.foldl_cons]
    obtain ⟨g1, g2, g3⟩ := inferStep_skeleton_one pos p1 p2 st1 st2 i h1 h2 h3
    exact inferFold_skeleton pos p1 p2 idxs _ _ g1 g2 g3

/-- The entry/exit skeleton of the inferred trades does not depend on
the pnl column. -/
theorem infer_trades_skeleton (pos p1 p2 : List ℚ) :
    (infer_trades_from_position pos p1).map (fun t => (t.entry_idx, t.exit_idx)) =
    (infer_trades_from_position pos p2).map (fun t => (t.entry_idx, t.exit_idx)) :=
  inferFold_skeleton pos p1 p2 (List.range' 1 (pos.length - 1))
    ⟨false, none, []⟩ ⟨false, none, []⟩ rfl rfl rfl

/-- C8 (amended): Feeding `compute_stats` a pnl column (with
start equity S) or instead an equity column equal to S plus the
cumulative pnl yields identical trades count, cagr, sharpe, max_dd,
exposure and net_pnl (and identical failures); win_rate and profit
factor are *not* covered: without a pnl column every inferred trade has
pnl 0. -/
theorem compute_stats_equity_vs_pnl (times pos pnl : List ℚ) (S : ℚ) (p? : Option ℤ) :
    (compute_stats ⟨some times, none, none, some pnl, some pos⟩ (some S) p?).map
      (fun r => (r.trades, r.cagr, r.sharpe, r.max_dd, r.exposure, r.net_pnl)) =
    (compute_stats ⟨some times, none, some ((cumsum pnl).map (fun x => S + x)), none,
        some pos⟩ (some S) p?).map
      (fun r => (r.trades, r.cagr, r.sharpe, r.max_dd, r.exposure, r.net_pnl)) := by
  unfold compute_stats
  rw [show asDatetimeIndex ⟨some times, none, none, some pnl, some pos⟩ =
    .ok times from rfl]
  rw [show asDatetimeIndex ⟨some times, none, some ((cumsum pnl).map (fun x => S + x)),
    none, some pos⟩ = .ok times from rfl]
  rw [show equityList ⟨some times, none, none, some pnl, some pos⟩ (some S) =
    .ok ((cumsum pnl).map (fun x => S + x)) from rfl]
  rw [show equityList ⟨some times, none, some ((cumsum pnl).map (fun x => S + x)),
    none, some pos⟩ (some S) = .ok ((cumsum pnl).map (fun x => S + x)) from rfl]
  dsimp only
  split_ifs
  · rfl
  · rfl
  · rfl
  · dsimp only [Except.map]
    have htr : (tradesOf ⟨some times, none, none, some pnl, some pos⟩).length =
        (tradesOf ⟨some times, none, some ((cumsum pnl).map (fun x => S + x)), none,
          some pos⟩).length := by
      show (infer_trades_from_position pos pnl).length =
        (infer_trades_from_position pos (List.replicate pos.length 0)).length
      have h := congrArg List.length
        (infer_trades_skeleton pos pnl (List.replicate pos.length 0))
      simpa using h
    rw [htr]
    rfl

def c8InputA : StatsInput := ⟨some [0, 1, 2], none, none, some [0, 0, 5], some [0, 1, 0]⟩

def c8InputB : StatsInput :=
  ⟨some [0, 1, 2], none, some [1000, 1000, 1005], none, some [0, 1, 0]⟩

/-- C8 counterexample: The same bar series fed once with its pnl
column (start equity 1000) and once with the equivalent equity column
[1000, 1000, 1005] reports win_rate 1 versus 0: the single inferred
trade's pnl is read from the pnl column, which the equity-only input
lacks (all-zero fallback). -/
theorem compute_stats_win_rate_counterexample :
    (compute_stats c8InputA (some 1000) (some 1)).map StatsRecord.win_rate = .ok 1 ∧
    (compute_stats c8InputB (some 1000) (some 1)).map StatsRecord.win_rate = .ok 0 ∧
    (1 : ℚ) ≠ 0 := by
  refine ⟨?_, ?_, by norm_num⟩
  · unfold compute_stats
    rw [show asDatetimeIndex c8InputA = .ok [0, 1, 2] from rfl]
    rw [show equityList c8InputA (some 1000) = .ok [1000, 1000, 1005] from by
      norm_num [equityList, c8InputA, cumsum, cumsumFrom]]
    dsimp only
    rw [if_neg (by norm_num), if_neg (by norm_num [effPpy]),
      if_neg (by norm_num [effPpy])]
    dsimp only [Except.map]
    have htrades : tradesOf c8InputA = [⟨1, 2, 5⟩] := by
      show infer_trades_from_position [0, 1, 0] [0, 0, 5] = [⟨1, 2, 5⟩]
      norm_num [infer_trades_from_position, inferStep, npSign, List.range']
    rw [htrades]
    norm_num [winRateOf, wins]
  · unfold compute_stats
    rw [show asDatetimeIndex c8InputB = .ok [0, 1, 2] from rfl]
    rw [show equityList c8InputB (some 1000) = .ok [1000, 1000, 1005] from rfl]
    dsimp only
    rw [if_neg (by norm_num), if_neg (by norm_num [effPpy]),
      if_neg (by norm_num [effPpy])]
    dsimp only [Except.map]
    have htrades : tradesOf c8InputB = [⟨1, 2, 0⟩] := by
      show infer_trades_from_position [0, 1, 0] (List.replicate 3 0) = [⟨1, 2, 0⟩]
      norm_num [infer_trades_from_position, inferStep, npSign, List.range',
        List.replicate]
    rw [htrades]
    norm_num [winRateOf, wins]

/-- The helper `asDatetimeIndex` fails (always with the invalid-input error)
exactly when the frame has neither a datetime index nor a `timestamp`
column. -/
theorem asDatetimeIndex_error (inp : StatsInput) (e : StatsError)
    (h : asDatetimeIndex inp = .error e) :
    inp.times = none ∧ inp.timestamp = none ∧ e = .invalidInput := by
  unfold asDatetimeIndex at h
  cases ht : inp.times with
  | some t => rw [ht] at h; exact Except.noConfusion h
  | none =>
    rw [ht] at h
    cases ht2 : inp.timestamp with
    | some t => rw [ht2] at h; exact Except.noConfusion h
    | none =>
      rw [ht2] at h
      exact ⟨rfl, rfl, (Except.error.inj h).symm⟩

/-- The helper `equityList` fails (always with the invalid-input error) exactly
when the frame has neither an `equity` nor a `pnl` column. -/
theorem equityList_error (inp : StatsInput) (s : Option ℚ) (e : StatsError)
    (h : equityList inp s = .error e) :
    inp.equity = none ∧ inp.pnl = none ∧ e = .invalidInput := by
  unfold equityList at h
  cases ht : inp.equity with
  | some t => rw [ht] at h; exact Except.noConfusion h
  | none =>
    rw [ht] at h
    cases ht2 : inp.pnl with
    | some t => rw [ht2] at h; exact Except.noConfusion h
    | none =>
      rw [ht2] at h
      exact ⟨rfl, rfl, (Except.error.inj h).symm⟩

/-- C9 (amended): the function `compute_stats` fails with the distinguishable
invalid-input error exactly when the input has neither a datetime index
nor a `timestamp` column, or neither an `equity` nor a `pnl` column;
and every input that passes those checks with a nonempty equity column
and a positive effective periods-per-year yields a complete result.
(The claim's "exactly" fails for the empty frame, which raises an
`IndexError`, and for a non-positive effective periods-per-year, which
raises a `ZeroDivisionError` or a math-domain `ValueError`.) -/
theorem compute_stats_error_characterization (inp : StatsInput) (s : Option ℚ)
    (p : Option ℤ) :
    (compute_stats inp s p = .error .invalidInput ↔
      ((inp.times = none ∧ inp.timestamp = none) ∨
        (inp.equity = none ∧ inp.pnl = none))) ∧
    (∀ ts eqy, asDatetimeIndex inp = .ok ts → equityList inp s = .ok eqy →
      eqy ≠ [] → 0 < effPpy ts p → ∃ r, compute_stats inp s p = .ok r) := by
  constructor
  · constructor
    · intro h
      unfold compute_stats at h
      cases hts : asDatetimeIndex inp with
      | error e =>
        exact Or.inl ⟨(asDatetimeIndex_error inp e hts).1,
          (asDatetimeIndex_error inp e hts).2.1⟩
      | ok ts =>
        rw [hts] at h
        cases heq : equityList inp s with
        | error e =>
          exact Or.inr ⟨(equityList_error inp s e heq).1,
            (equityList_error inp s e heq).2.1⟩
        | ok eqy =>
          rw [heq] at h
          dsimp only at h
          by_cases h1 : eqy.length = 0
          · rw [if_pos h1] at h
            exact absurd (Except.error.inj h) (by decide)
          · rw [if_neg h1] at h
            by_cases h2 : effPpy ts p = 0
            · rw [if_pos h2] at h
              exact absurd (Except.error.inj h) (by decide)
            · rw [if_neg h2] at h
              by_cases h3 : effPpy ts p < 0 ∧ 1 < (logReturns eqy).length
              · rw [if_pos h3] at h
                exact absurd (Except.error.inj h) (by decide)
              · rw [if_neg h3] at h
                exact Except.noConfusion h
    · intro h
      rcases h with ⟨h1, h2⟩ | ⟨h1, h2⟩
      · have hts : asDatetimeIndex inp = .error .invalidInput := by
          unfold asDatetimeIndex
          rw [h1, h2]
        unfold compute_stats
        rw [hts]
      · cases hts : asDatetimeIndex inp with
        | error e =>
          have he := (asDatetimeIndex_error inp e hts).2.2
          unfold compute_stats
          rw [hts, he]
        | ok ts =>
          have heq : equityList inp s = .error .invalidInput := by
            unfold equityList
            rw [h1, h2]
          unfold compute_stats
          rw [hts, heq]
  · intro ts eqy hts heq hne hppy
    unfold compute_stats
    rw [hts, heq]
    dsimp only
    rw [if_neg (fun h => hne (List.length_eq_zero.mp h)),
      if_neg (ne_of_gt hppy),
      if_neg (by rintro ⟨hlt, -⟩; exact absurd hppy (not_lt.mpr (le_of_lt hlt)))]
    exact ⟨_, rfl⟩

/-- Witness for C9: a well-formed two-bar pnl input with supplied
periods-per-year 24 succeeds. -/
theorem compute_stats_error_characterization_witness :
    ∃ r, compute_stats ⟨some [0, 1], none, none, some [1, 2], some [0, 1]⟩
      (some 100) (some 24) = .ok r :=
  (compute_stats_error_characterization
      ⟨some [0, 1], none, none, some [1, 2], some [0, 1]⟩ (some 100) (some 24)).2
    [0, 1] ((cumsum [1, 2]).map (fun x => (100 : ℚ) + x)) rfl rfl
    (by simp [cumsum, cumsumFrom]) (by norm_num [effPpy])

def c9EmptyInput : StatsInput := ⟨some [], none, none, some [], some []⟩

/-- C9 counterexample: The empty-but-well-formed frame (timestamped,
pnl and position columns present) fails with the `IndexError` from
`equity.iloc[-1]` — a failure that is neither the distinguishable
invalid-input error nor a complete result, although the input satisfies
neither fatal-input condition of the claim. -/
theorem compute_stats_empty_counterexample :
    compute_stats c9EmptyInput (some 1000) (some 1) = .error .indexError ∧
    StatsError.indexError ≠ StatsError.invalidInput := by
  constructor
  · unfold compute_stats
    rw [show asDatetimeIndex c9EmptyInput = .ok [] from rfl]
    rw [show equityList c9EmptyInput (some 1000) = .ok [] from rfl]
    dsimp only
    rw [if_pos (show (([] : List ℚ)).length = 0 from rfl)]
  · decide

/-! ## Correlation-based weights (`risk.py`) -/

/-- A pandas float that may be +inf (Series division `1.0/0.0`). -/
inductive PInf where
  | inf : PInf
  | fin (x : ℝ) : PInf

/-- A reported weight: NaN (from `inf/inf`), +inf, or finite. -/
inductive PW where
  | nan : PW
  | inf : PW
  | fin (x : ℝ) : PW

/-- The number of aligned price rows: pandas aligns the series
positionally (the caller resets the index), so `DataFrame(prices)` pads
shorter series with NaN and `dropna(how="any")` after `pct_change`
keeps exactly the first `minLen` rows minus the leading NaN row. -/
def alignedLen (prices : List (String × List ℚ)) : ℕ :=
  match prices.map (fun kv => kv.2.length) with
  | [] => 0
  | n :: ns => ns.foldl min n

/-- Simple returns of one column over the aligned rows
(`df.pct_change().dropna(how="any")`). Prices are positive by the data
model, so no division by zero arises here. -/
def retsFor (minLen : ℕ) (p : List ℚ) : List ℚ :=
  ((p.take minLen).zip (p.take minLen).tail).map (fun ab => (ab.2 - ab.1) / ab.1)

def qMean (l : List ℚ) : ℚ := l.sum / l.length

/-- Sample covariance (ddof = 1; the normalization cancels inside the
correlation ratio, and a zero value signals a constant column). -/
def qCov (xs ys : List ℚ) : ℚ :=
  ((xs.zip ys).map (fun ab => (ab.1 - qMean xs) * (ab.2 - qMean ys))).sum /
    ((xs.length : ℚ) - 1)

/-- Pearson correlation as `DataFrame.corr` computes it: NaN (`none`)
when either variance is 0 (constant column or a single aligned row),
else `cov/sqrt(var_x · var_y)`. -/
noncomputable def pearson (xs ys : List ℚ) : Option ℝ :=
  if qCov xs xs = 0 ∨ qCov ys ys = 0 then none
  else some ((qCov xs ys : ℝ) / Real.sqrt ((qCov xs xs : ℝ) * (qCov ys ys : ℝ)))

/-- The per-symbol correlation penalty:
`corr.fillna(0).abs().sum(axis=1) − 1` (NaN correlations count 0, the
self-correlation is subtracted back out). -/
noncomputable def penaltyFor (rets : List (String × List ℚ)) (x : List ℚ) : ℝ :=
  (rets.map (fun kv => |(pearson x kv.2).getD 0|)).sum - 1

/-- The series `inv = 1.0 / (1.0 + penalty)`: +inf when the denominator is 0 (the
numerator is the positive constant 1). -/
noncomputable def invFor (p : ℝ) : PInf :=
  if 1 + p = 0 then .inf else .fin (1 / (1 + p))

/-- Pandas `.clip(lower=0.0)` (infinity stays infinite). -/
noncomputable def rawFor (v : PInf) : PInf :=
  match v with
  | .inf => .inf
  | .fin x => .fin (max x 0)

/-- Pandas `raw.sum()`: infinite as soon as any term is infinite. -/
noncomputable def sumPInf (l : List PInf) : PInf :=
  l.foldl (fun acc v =>
    match acc, v with
    | .inf, _ => .inf
    | _, .inf => .inf
    | .fin a, .fin b => .fin (a + b)) (.fin 0)

/-- Elementwise `raw / s`: `inf/inf = NaN`, `x/inf = 0`,
`x/σ` for finite positive σ (the `s ≤ 0` guard has already excluded
non-positive finite sums). -/
noncomputable def divByS (raw s : PInf) : PW :=
  match raw, s with
  | .inf, .inf => .nan
  | .fin _, .inf => .fin 0
  | .inf, .fin _ => .inf
  | .fin x, .fin σ => .fin (x / σ)

open Classical

/-- The static method `RiskManager.correlation_based_weights` from `risk.py`, over an
association list of (symbol, close-price series). -/
noncomputable def correlation_based_weights (prices : List (String × List ℚ)) :
    List (String × PW) :=
  match prices with
  | [] => []
  | [(k, _)] => [(k, .fin 1)]
  | _ =>
    let n := alignedLen prices
    if n - 1 = 0 then
      prices.map (fun kv => (kv.1, PW.fin (1 / (prices.length : ℝ))))
    else
      let rets := prices.map (fun kv => (kv.1, retsFor n kv.2))
      let raws := rets.map (fun kv => (kv.1, rawFor (invFor (penaltyFor rets kv.2))))
      let s := sumPInf (raws.map (fun kv => kv.2))
      if (match s with | .inf => False | .fin σ => σ ≤ 0) then
        prices.map (fun kv => (kv.1, PW.fin (1 / (prices.length : ℝ))))
      else raws.map (fun kv => (kv.1, divByS kv.2 s))

/-- C2 (code evaluated at the failing input): On prices A = [1,2,4]
(constant returns) and B = [1,2,3], the correlation row of A is all-NaN,
filled to 0, so A's penalty is −1, its raw weight 1/(1−1) = +inf, the
normalizer is +inf, and the returned weights are {A: NaN, B: 0.0} — the
weights neither lie in [0,1] nor sum to 1. The empty and single-symbol
branches do behave as claimed. -/
theorem correlation_based_weights_nan_counterexample :
    correlation_based_weights [("A", [1, 2, 4]), ("B", [1, 2, 3])] =
      [("A", PW.nan), ("B", PW.fin 0)] ∧
    (∀ x : ℝ, PW.nan ≠ PW.fin x) ∧
    correlation_based_weights [] = [] ∧
    correlation_based_weights [("A", [1, 2, 4])] = [("A", PW.fin 1)] := by
  refine ⟨?_, fun x h => PW.noConfusion h, rfl, rfl⟩
  have hretA : retsFor 3 [(1 : ℚ), 2, 4] = [1, 1] := by
    norm_num [retsFor]
  have hretB : retsFor 3 [(1 : ℚ), 2, 3] = [1, 1/2] := by
    norm_num [retsFor]
  have hvarA : qCov [(1 : ℚ), 1] [(1 : ℚ), 1] = 0 := by
    norm_num [qCov, qMean]
  have hvarB : qCov [(1 : ℚ), 1/2] [(1 : ℚ), 1/2] = 1/8 := by
    norm_num [qCov, qMean]
  have hpAA : pearson [(1 : ℚ), 1] [(1 : ℚ), 1] = none := by
    rw [pearson, if_pos (Or.inl hvarA)]
  have hpAB : pearson [(1 : ℚ), 1] [(1 : ℚ), 1/2] = none := by
    rw [pearson, if_pos (Or.inl hvarA)]
  have hpBA : pearson [(1 : ℚ), 1/2] [(1 : ℚ), 1] = none := by
    rw [pearson, if_pos (Or.inr hvarA)]
  have hpBB : pearson [(1 : ℚ), 1/2] [(1 : ℚ), 1/2] = some 1 := by
    rw [pearson, if_neg (by rw [hvarB]; norm_num), hvarB]
    congr 1
    rw [show (((1 : ℚ)/8 : ℚ) : ℝ) = 1/8 by norm_num]
    rw [Real.sqrt_mul_self (by norm_num : (0 : ℝ) ≤ 1/8)]
    norm_num
  have hpenA : penaltyFor [("A", [(1 : ℚ), 1]), ("B", [(1 : ℚ), 1/2])] [(1 : ℚ), 1]
      = -1 := by
    rw [penaltyFor]
    simp only [List.map_cons, List.map_nil, List.sum_cons, List.sum_nil]
    rw [hpAA, hpAB]
    simp
  have hpenB : penaltyFor [("A", [(1 : ℚ), 1]), ("B", [(1 : ℚ), 1/2])] [(1 : ℚ), 1/2]
      = 0 := by
    rw [penaltyFor]
    simp only [List.map_cons, List.map_nil, List.sum_cons, List.sum_nil]
    rw [hpBA, hpBB]
    simp
  have hinvA : invFor (-1) = .inf := by
    rw [invFor, if_pos (by norm_num)]
  have hinvB : invFor 0 = .fin 1 := by
    rw [invFor, if_neg (by norm_num)]
    norm_num
  rw [correlation_based_weights]
  rw [show alignedLen [("A", [(1 : ℚ), 2, 4]), ("B", [(1 : ℚ), 2, 3])] = 3 from rfl]
  rw [if_neg (by norm_num)]
  simp only [List.map_cons, List.map_nil]
  rw [hretA, hretB, hpenA, hpenB, hinvA, hinvB]
  simp only [rawFor, sumPInf, List.foldl, divByS]
  norm_num
  case x_1 => simp
  case x_2 =>
    intro k snd h
    simp at h

end CoinbaseBot
